import Mathlib

/-!
# Verification of the `game_of_kettu` board game core

A shallow embedding of `src/main.rs`: the `Board` data model, legal-move
generation, move application (`advance`) with its locking sweep, win
detection, and the recursive `Solver::find_best_move` search.

Conventions of the embedding:
* Rust `usize` values are modelled as `Nat`.  The only subtractions in the
  source (`self.size.0 - 1`) occur with `size.0 ≥ 1` whenever a cell exists,
  so truncated `Nat` subtraction agrees with `usize` there.
* `Vec` indexing that would panic in Rust (out-of-bounds reads in
  `get_cell`, `Vec::swap`, and the lock-update loop) is modelled totally
  with `List.getD`/`List.set` (out-of-bounds reads yield `none`, writes are
  no-ops).  Theorems carry well-formedness hypotheses (`Board.WF`, and
  `size.1 ≤ size.2` where the neighbour sweep is involved) that confine
  them to boards on which the Rust code performs no out-of-bounds access;
  the out-of-bounds behaviour itself is the subject of claims C9 and C10.
* `Result<Board, ()>` becomes `Option Board` (`none` = the illegal-move
  failure `Err(())`).
* The unreachable `as_mut().unwrap()` on a `None` cell inside the lock
  loop is modelled as a no-op (`lock_cell none = none`).
-/

/-- `struct Coordinate { x: usize, y: usize }`. -/
structure Coordinate where
  x : Nat
  y : Nat
deriving DecidableEq, Repr

/-- `struct Token { player: Player, locked: bool }` (`Player = u32`). -/
structure Token where
  player : Nat
  locked : Bool
deriving DecidableEq, Repr

/-- `type Cell = Option<Token>`. -/
abbrev Cell := Option Token

/-- `fn c(x: usize, y: usize) -> Coordinate`. -/
def c (x y : Nat) : Coordinate :=
  { x := x, y := y }

/-- `enum WinState { NotOver, Draw, Winner(Player) }`. -/
inductive WinState where
  | NotOver : WinState
  | Draw : WinState
  | Winner : Nat → WinState
deriving DecidableEq, Repr

/-- `enum Move { Place(Coordinate), Swap(Coordinate, Coordinate) }`. -/
inductive Move where
  | Place : Coordinate → Move
  | Swap : Coordinate → Coordinate → Move
deriving DecidableEq, Repr

/-- `struct Board { current_turn: Player, cells: Vec<Cell>, size: (usize, usize) }`.
`size.1` is the width (Rust `size.0`), `size.2` the height (Rust `size.1`). -/
structure Board where
  current_turn : Nat
  cells : List Cell
  size : Nat × Nat
deriving DecidableEq, Repr

namespace Board

/-- `Board::new(size)`: all cells empty, player 0 to move. -/
def new (size : Nat × Nat) : Board :=
  { current_turn := 0, cells := List.replicate (size.1 * size.2) none, size := size }

/-- `fn cell_index(&self, coordinate) -> usize { self.size.0 * coordinate.y + coordinate.x }`. -/
def cell_index (b : Board) (co : Coordinate) : Nat :=
  b.size.1 * co.y + co.x

/-- `fn get_cell(&self, c) -> Cell { self.cells[self.cell_index(c)].clone() }`.
An out-of-bounds index (a Rust panic) is modelled as `none`. -/
def get_cell (b : Board) (co : Coordinate) : Cell :=
  b.cells.getD (b.cell_index co) none

/-- `fn set_cell(&self, coordinate, token) -> Board`. -/
def set_cell (b : Board) (co : Coordinate) (token : Token) : Board :=
  { b with cells := b.cells.set (b.cell_index co) (some token) }

/-- `fn get_cells(&self)`: every `(cell, coordinate)` pair, the coordinates
produced row-major (`y` outer over `0..height`, `x` inner over `0..width`). -/
def get_cells (b : Board) : List (Cell × Coordinate) :=
  ((((List.range b.size.2).flatMap fun y => (List.range b.size.1).map fun x => (x, y)).map
      fun p => c p.1 p.2).map
    fun co => (b.get_cell co, co))

/-- `fn cells_neighbor_coordinates(&self, cell_coordinates) -> Vec<Coordinate>`.
Note the source bounds BOTH horizontal and vertical "+1" neighbours by
`self.size.0 - 1` (the width); the `y + 1` bound is therefore the width,
not the height — this is the subject of claim C9. -/
def cells_neighbor_coordinates (b : Board) (cc : Coordinate) : List Coordinate :=
  (if cc.x > 0 then [c (cc.x - 1) cc.y] else []) ++
  (if cc.x < b.size.1 - 1 then [c (cc.x + 1) cc.y] else []) ++
  (if cc.y > 0 then [c cc.x (cc.y - 1)] else []) ++
  (if cc.y < b.size.1 - 1 then [c cc.x (cc.y + 1)] else [])

/-- `fn cells_and_neighbors(&self)`: each `(cell, coordinate)` paired with the
list of `(neighbor cell, neighbor coordinate)` for its computed neighbours. -/
def cells_and_neighbors (b : Board) :
    List ((Cell × Coordinate) × List (Cell × Coordinate)) :=
  (b.get_cells.map fun x => (x, b.cells_neighbor_coordinates x.2)).map
    fun y => (y.1, y.2.map fun nc => (b.get_cell nc, nc))

/-- The `unlocked_populated_cells` collection of `get_legal_moves`: the
coordinates (row-major) holding unlocked tokens. -/
def unlocked_populated_cells (b : Board) : List Coordinate :=
  b.get_cells.filterMap fun x =>
    match x.1 with
    | none => none
    | some { locked := false, .. } => some x.2
    | some { locked := true, .. } => none

/-- `fn get_legal_moves(&self) -> Vec<Move>`. -/
def get_legal_moves (b : Board) : List Move :=
  b.get_cells.flatMap fun x =>
    match x.1 with
    | none => [Move.Place x.2]
    | some { locked := false, .. } =>
      (b.unlocked_populated_cells.filter fun co => decide (co ≠ x.2)).map
        fun co => Move.Swap x.2 co
    | some { locked := true, .. } => []

/-- `fn cell_is_victory_point(neighbors, player) -> bool`: strictly more than 3
of the given neighbour cells hold a token of `player`. -/
def cell_is_victory_point (neighbors : List (Cell × Coordinate)) (player : Nat) : Bool :=
  decide (3 <
    (((neighbors.filterMap fun x => x.1).map
        fun token => if token.player = player then 1 else 0).sum : Nat))

/-- Locking a cell in place: `token.locked = true` via `as_mut().unwrap()`.
The `none` case is a Rust panic, unreachable on the cells the sweep targets;
modelled as the identity. -/
def lock_cell : Cell → Cell
  | none => none
  | some t => some { t with locked := true }

/-- The `cells_to_lock` collection inside `update_locked_cells`: coordinates
whose cell holds an unlocked token that is a victory point, gathered against
the board snapshot before any locking is applied. -/
def lockTargets (b : Board) : List Coordinate :=
  b.cells_and_neighbors.filterMap fun x =>
    match x.1.1 with
    | some { player := player, locked := false } =>
      if cell_is_victory_point x.2 player then some x.1.2 else none
    | _ => none

/-- `fn update_locked_cells(&mut self)`: collect `cells_to_lock` from the
snapshot, then set `locked = true` at each collected coordinate. -/
def update_locked_cells (b : Board) : Board :=
  { b with
    cells :=
      (b.lockTargets).foldl
        (fun cs co => cs.set (b.cell_index co) (lock_cell (cs.getD (b.cell_index co) none)))
        b.cells }

/-- The cell-vector effect of the successful `Swap` branch:
`cells.swap(index1, index2)` followed by `locked = true` at both indices. -/
def swapLockCells (cs : List Cell) (index1 index2 : Nat) : List Cell :=
  let swapped := (cs.set index1 (cs.getD index2 none)).set index2 (cs.getD index1 none)
  let locked1 := swapped.set index1 (lock_cell (swapped.getD index1 none))
  locked1.set index2 (lock_cell (locked1.getD index2 none))

/-- The successful `Swap` branch of `advance`: `cells.swap(index1, index2)`
followed by forcing `locked = true` at both indices. -/
def swap_and_lock (b : Board) (pos1 pos2 : Coordinate) : Board :=
  { b with cells := swapLockCells b.cells (b.cell_index pos1) (b.cell_index pos2) }

/-- The tail of `advance` shared by both move kinds: run the locking sweep,
then advance `current_turn` to `(current_turn + 1) % 2`. -/
def finish_advance (new_state : Board) : Board :=
  let swept := new_state.update_locked_cells
  { swept with current_turn := (swept.current_turn + 1) % 2 }

/-- The move's direct effect (the `match move_` of `advance`, before the
locking sweep and the turn increment): validate the move and produce the
post-move snapshot, or the illegal-move failure. -/
def applyMove (b : Board) (move_ : Move) : Option Board :=
  match move_ with
  | Move.Place coordinate =>
    if (b.get_cell coordinate).isSome then none
    else some (b.set_cell coordinate { locked := false, player := b.current_turn })
  | Move.Swap pos1 pos2 =>
    if (b.get_cell pos1).isNone then none
    else if (b.get_cell pos2).isNone then none
    else some (b.swap_and_lock pos1 pos2)

/-- `fn advance(&self, move_) -> Result<Board, ()>`: validate and apply the
move, then run the locking sweep and flip `current_turn`. -/
def advance (b : Board) (move_ : Move) : Option Board :=
  (b.applyMove move_).map finish_advance

/-- `fn count_victory_points(&self) -> Vec<usize>`: for each of players 0, 1,
the number of that player's cells (locked or not) that are victory points. -/
def count_victory_points (b : Board) : List Nat :=
  (List.range 2).map fun player =>
    ((((b.cells_and_neighbors.filterMap fun x => x.1.1.map fun t => (t, x.2)).filter
          fun tn => decide (tn.1.player = player)).filterMap
        fun tn => if cell_is_victory_point tn.2 player then some 1 else none).sum : Nat)

/-- `fn check_win_condition(&self) -> WinState`. -/
def check_win_condition (b : Board) : WinState :=
  if b.get_legal_moves ≠ [] then WinState.NotOver
  else
    let victory_points_per_player := b.count_victory_points
    if victory_points_per_player.getD 0 0 = victory_points_per_player.getD 1 0 then WinState.Draw
    else if victory_points_per_player.getD 0 0 > victory_points_per_player.getD 1 0 then
      WinState.Winner 0
    else WinState.Winner 1

/-- Well-formedness: the cell vector has exactly `width * height` entries
(maintained by `new` and every `advance`). -/
def WF (b : Board) : Prop :=
  b.cells.length = b.size.1 * b.size.2

instance (b : Board) : Decidable b.WF := by
  unfold WF; infer_instance

/-- A coordinate that addresses a real grid cell. -/
def inGrid (b : Board) (co : Coordinate) : Prop :=
  co.x < b.size.1 ∧ co.y < b.size.2

instance (b : Board) (co : Coordinate) : Decidable (b.inGrid co) := by
  unfold inGrid; infer_instance

/-- Both coordinates mentioned by a move address real grid cells. -/
def moveInGrid (b : Board) : Move → Prop
  | Move.Place co => b.inGrid co
  | Move.Swap c1 c2 => b.inGrid c1 ∧ b.inGrid c2

instance (b : Board) (m : Move) : Decidable (b.moveInGrid m) := by
  cases m <;> (unfold moveInGrid; infer_instance)

/-- The "is empty" cell predicate. -/
def cellIsEmpty (cell : Cell) : Bool :=
  cell.isNone

/-- The "holds an unlocked token" cell predicate. -/
def cellIsUnlocked : Cell → Bool
  | some { locked := false, .. } => true
  | _ => false

/-- The termination measure of the game: twice the number of empty cells plus
the number of unlocked tokens.  Every `advance` of a legal move strictly
decreases it (a `Place` turns one empty into an unlocked token, a legal
`Swap` locks two unlocked tokens, and the sweep only ever locks). -/
def solverMeasure (b : Board) : Nat :=
  2 * b.cells.countP cellIsEmpty + b.cells.countP cellIsUnlocked

end Board

/-- The body of the `for move_ in legal_moves` loop of `Solver::find_best_move`,
with the recursive call abstracted as `recurse`.  The `advance` failure branch
is the `expect("game logic failed")` abort, unreachable for legal moves. -/
def find_loop (recurse : Board → Option Move) (b : Board) (p : Nat) :
    List Move → Option Move
  | [] => none
  | m :: rest =>
    match b.advance m with
    | none => none
    | some new_state =>
      if new_state.check_win_condition = WinState.Winner p then some m
      else if (recurse new_state).isSome then some m
      else find_loop recurse b p rest

/-- `Solver::find_best_move`, fuelled: the Rust function recurses on the board
with no structural decrease, so the embedding threads explicit fuel; any fuel
above `solverMeasure` computes the same answer (`find_best_move_aux_irrel`). -/
def find_best_move_aux : Nat → Board → Nat → Option Move
  | 0, _, _ => none
  | fuel + 1, b, p =>
    if b.check_win_condition ≠ WinState.NotOver then none
    else if b.get_legal_moves.isEmpty then none
    else find_loop (fun nb => find_best_move_aux fuel nb p) b p b.get_legal_moves

/-- `Solver::find_best_move(board, player)`. -/
def find_best_move (b : Board) (p : Nat) : Option Move :=
  find_best_move_aux (b.solverMeasure + 1) b p

/-! ## Spec-side definitions

These restate the spec's/claims' wording independently of the source
translation above, for the refinement claims (C1, C4, C5).  Each is written
from the claim's words, to be compared with the source definitions. -/

namespace Board

/-- The grid's coordinates in row-major order (`y` outer, `x` inner), as the
spec describes the scanning order. -/
def specCoords (b : Board) : List Coordinate :=
  (List.range b.size.2).flatMap fun y => (List.range b.size.1).map fun x => c x y

/-- The claim's "cell holding an unlocked token" test. -/
def cellUnlockedOccupied (b : Board) (co : Coordinate) : Bool :=
  match b.get_cell co with
  | some t => !t.locked
  | none => false

/-- Claim C1's description of the legal-move sequence: scanning cells
row-major, an empty cell yields one `Place`; an unlocked token yields a
`Swap` to every other distinct unlocked-token coordinate, targets in
row-major order; a locked token yields nothing. -/
def legalMovesSpec (b : Board) : List Move :=
  b.specCoords.flatMap fun co =>
    match b.get_cell co with
    | none => [Move.Place co]
    | some t =>
      if t.locked then []
      else
        ((b.specCoords.filter fun co2 => decide (co2 ≠ co) && b.cellUnlockedOccupied co2).map
          fun co2 => Move.Swap co co2)

theorem specCoords_mem (b : Board) (co : Coordinate) :
    co ∈ b.specCoords ↔ b.inGrid co := by
  simp only [specCoords, List.mem_flatMap, List.mem_map, List.mem_range, inGrid]
  constructor
  · rintro ⟨y, hy, x, hx, rfl⟩
    exact ⟨hx, hy⟩
  · rintro ⟨hx, hy⟩
    exact ⟨co.y, hy, co.x, hx, rfl⟩

theorem get_cells_eq (b : Board) :
    b.get_cells = b.specCoords.map fun co => (b.get_cell co, co) := by
  simp only [get_cells, specCoords, List.map_flatMap, List.map_map]
  rfl

theorem filterMap_unlocked (b : Board) (l : List Coordinate) :
    (l.filterMap fun co =>
        match b.get_cell co with
        | none => none
        | some { locked := false, .. } => some co
        | some { locked := true, .. } => none) =
      l.filter fun co => b.cellUnlockedOccupied co := by
  induction l with
  | nil => rfl
  | cons co rest ih =>
    simp only [List.filterMap_cons, List.filter_cons]
    rcases h : b.get_cell co with _ | ⟨p, locked⟩
    · simpa [cellUnlockedOccupied, h] using ih
    · cases locked <;> simp [cellUnlockedOccupied, h, ih]

theorem unlocked_populated_eq (b : Board) :
    b.unlocked_populated_cells = b.specCoords.filter fun co => b.cellUnlockedOccupied co := by
  unfold unlocked_populated_cells
  rw [get_cells_eq, List.filterMap_map]
  exact filterMap_unlocked b _

/-- The source's `get_legal_moves` produces exactly the sequence claim C1
describes. -/
theorem legal_moves_eq_spec (b : Board) :
    b.get_legal_moves = b.legalMovesSpec := by
  unfold get_legal_moves legalMovesSpec
  rw [get_cells_eq, List.flatMap_map, unlocked_populated_eq]
  congr 1
  funext co
  simp only [Function.comp]
  rcases h : b.get_cell co with _ | ⟨p, locked⟩
  · rfl
  · cases locked
    · simp only [if_neg Bool.false_ne_true, List.filter_filter]
    · rfl

theorem mem_legal_place (b : Board) (co : Coordinate) :
    Move.Place co ∈ b.get_legal_moves ↔ b.inGrid co ∧ b.get_cell co = none := by
  rw [legal_moves_eq_spec]
  unfold legalMovesSpec
  simp only [List.mem_flatMap]
  constructor
  · rintro ⟨a, ha, hmem⟩
    rcases h : b.get_cell a with _ | t
    · rw [h] at hmem
      simp only [List.mem_singleton, Move.Place.injEq] at hmem
      obtain rfl := hmem
      exact ⟨(b.specCoords_mem _).mp ha, h⟩
    · rw [h] at hmem
      by_cases hl : t.locked = true
      · simp [hl] at hmem
      · simp only [Bool.not_eq_true] at hl
        simp only [hl, if_neg Bool.false_ne_true, List.mem_map] at hmem
        obtain ⟨_, _, habs⟩ := hmem
        exact absurd habs (by simp)
  · rintro ⟨hin, hempty⟩
    exact ⟨co, (b.specCoords_mem co).mpr hin, by rw [hempty]; simp⟩

theorem mem_legal_swap (b : Board) (c1 c2 : Coordinate) :
    Move.Swap c1 c2 ∈ b.get_legal_moves ↔
      b.inGrid c1 ∧ b.inGrid c2 ∧ c2 ≠ c1 ∧
        b.cellUnlockedOccupied c1 = true ∧ b.cellUnlockedOccupied c2 = true := by
  rw [legal_moves_eq_spec]
  unfold legalMovesSpec
  simp only [List.mem_flatMap]
  constructor
  · rintro ⟨a, ha, hmem⟩
    rcases h : b.get_cell a with _ | t
    · rw [h] at hmem
      simp at hmem
    · rw [h] at hmem
      by_cases hl : t.locked = true
      · simp [hl] at hmem
      · simp only [Bool.not_eq_true] at hl
        simp only [hl, if_neg Bool.false_ne_true, List.mem_map, List.mem_filter,
          Bool.and_eq_true, decide_eq_true_eq] at hmem
        obtain ⟨co2, ⟨hco2, hne, hun⟩, heq⟩ := hmem
        cases heq
        refine ⟨(b.specCoords_mem c1).mp ha, (b.specCoords_mem c2).mp hco2, hne, ?_, hun⟩
        simp [cellUnlockedOccupied, h, hl]
  · rintro ⟨h1, h2, hne, hu1, hu2⟩
    refine ⟨c1, (b.specCoords_mem c1).mpr h1, ?_⟩
    unfold cellUnlockedOccupied at hu1
    rcases h : b.get_cell c1 with _ | t
    · rw [h] at hu1; simp at hu1
    · rw [h] at hu1
      simp only [Bool.not_eq_true'] at hu1
      simp only [hu1, if_neg Bool.false_ne_true, List.mem_map, List.mem_filter,
        Bool.and_eq_true, decide_eq_true_eq]
      exact ⟨c2, ⟨(b.specCoords_mem c2).mpr h2, hne, hu2⟩, rfl⟩

end Board

/-! ## List-level helpers for the locking fold -/

theorem getD_set_eq_ite (cs : List Cell) (j i : Nat) (a : Cell) :
    (cs.set j a).getD i none = if j = i ∧ j < cs.length then a else cs.getD i none := by
  rw [List.getD_eq_getElem?_getD, List.getElem?_set, List.getD_eq_getElem?_getD]
  by_cases hj : j = i
  · subst hj
    by_cases hl : j < cs.length
    · simp [hl]
    · simp only [hl, and_false, if_false, if_neg hl, if_pos rfl]
      rw [List.getElem?_eq_none (Nat.le_of_not_lt hl)]
      rfl
  · simp [hj]

theorem getD_set_self (cs : List Cell) (j : Nat) (a : Cell) (h : j < cs.length) :
    (cs.set j a).getD j none = a := by
  rw [getD_set_eq_ite]
  simp [h]

theorem getD_set_ne (cs : List Cell) (j i : Nat) (a : Cell) (h : j ≠ i) :
    (cs.set j a).getD i none = cs.getD i none := by
  rw [getD_set_eq_ite]
  simp [h]

theorem getD_none_of_length_le (cs : List Cell) (i : Nat) (h : cs.length ≤ i) :
    cs.getD i none = none := by
  rw [List.getD_eq_getElem?_getD, List.getElem?_eq_none h]
  rfl

namespace Board

theorem lock_cell_idem (x : Cell) : lock_cell (lock_cell x) = lock_cell x := by
  cases x <;> rfl

theorem lock_cell_isNone (x : Cell) : (lock_cell x).isNone = x.isNone := by
  cases x <;> rfl

/-- The locking fold, pointwise: an index ends up locked exactly when some
target coordinate addresses it; every other entry is untouched. -/
theorem foldl_lock_getD (f : Coordinate → Nat) (l : List Coordinate) (cs : List Cell)
    (i : Nat) :
    (l.foldl (fun cs' co' => cs'.set (f co') (lock_cell (cs'.getD (f co') none))) cs).getD
        i none =
      if ∃ co' ∈ l, f co' = i then lock_cell (cs.getD i none) else cs.getD i none := by
  induction l generalizing cs with
  | nil => simp
  | cons co' l' ih =>
    have hcons : (∃ a ∈ co' :: l', f a = i) ↔ (f co' = i ∨ ∃ a ∈ l', f a = i) := by
      simp only [List.mem_cons, or_and_right, exists_or, exists_eq_left]
    simp only [List.foldl_cons]
    rw [ih, getD_set_eq_ite]
    by_cases hrest : ∃ a ∈ l', f a = i
    · rw [if_pos hrest, if_pos (hcons.mpr (Or.inr hrest))]
      by_cases hji : f co' = i
      · by_cases hlen : f co' < cs.length
        · rw [if_pos ⟨hji, hlen⟩, hji, lock_cell_idem]
        · rw [if_neg fun h => hlen h.2]
      · rw [if_neg fun h => hji h.1]
    · rw [if_neg hrest]
      by_cases hji : f co' = i
      · rw [if_pos (hcons.mpr (Or.inl hji))]
        by_cases hlen : f co' < cs.length
        · rw [if_pos ⟨hji, hlen⟩, hji]
        · rw [if_neg fun h => hlen h.2]
          have hnone : cs.getD i none = none :=
            getD_none_of_length_le cs i (hji ▸ Nat.le_of_not_lt hlen)
          rw [hnone]
          rfl
      · rw [if_neg fun h => hji h.1, if_neg ((not_iff_not.mpr hcons).mpr
          (not_or.mpr ⟨hji, hrest⟩))]

end Board

namespace Board

theorem cell_index_lt (b : Board) {co : Coordinate} (h : b.inGrid co) :
    b.cell_index co < b.size.1 * b.size.2 := by
  obtain ⟨hx, hy⟩ := h
  calc b.size.1 * co.y + co.x < b.size.1 * co.y + b.size.1 := Nat.add_lt_add_left hx _
    _ = b.size.1 * (co.y + 1) := by rw [Nat.mul_succ]
    _ ≤ b.size.1 * b.size.2 := Nat.mul_le_mul_left _ hy

theorem cell_index_inj (b : Board) {co1 co2 : Coordinate} (h1 : b.inGrid co1)
    (h2 : b.inGrid co2) (he : b.cell_index co1 = b.cell_index co2) : co1 = co2 := by
  obtain ⟨x1, y1⟩ := co1
  obtain ⟨x2, y2⟩ := co2
  obtain ⟨hx1, hy1⟩ := h1
  obtain ⟨hx2, hy2⟩ := h2
  simp only [cell_index] at he
  have hw : 0 < b.size.1 := lt_of_le_of_lt (Nat.zero_le _) hx1
  have e1 : (b.size.1 * y1 + x1) / b.size.1 = y1 := by
    rw [Nat.mul_add_div hw, Nat.div_eq_of_lt hx1, Nat.add_zero]
  have e2 : (b.size.1 * y2 + x2) / b.size.1 = y2 := by
    rw [Nat.mul_add_div hw, Nat.div_eq_of_lt hx2, Nat.add_zero]
  rw [he, e2] at e1
  subst e1
  have : x1 = x2 := by omega
  subst this
  rfl

/-- The `(neighbor cell, neighbor coordinate)` list computed for one cell. -/
def neighborPairs (b : Board) (co : Coordinate) : List (Cell × Coordinate) :=
  (b.cells_neighbor_coordinates co).map fun nc => (b.get_cell nc, nc)

theorem cells_and_neighbors_eq (b : Board) :
    b.cells_and_neighbors =
      b.specCoords.map fun co => ((b.get_cell co, co), b.neighborPairs co) := by
  unfold cells_and_neighbors neighborPairs
  rw [get_cells_eq, List.map_map, List.map_map]
  rfl

theorem lockTargets_mem (b : Board) (co : Coordinate) :
    co ∈ b.lockTargets ↔
      b.inGrid co ∧ ∃ p, b.get_cell co = some { player := p, locked := false } ∧
        cell_is_victory_point (b.neighborPairs co) p = true := by
  unfold lockTargets
  rw [cells_and_neighbors_eq, List.filterMap_map]
  rw [List.mem_filterMap]
  constructor
  · rintro ⟨a, ha, heq⟩
    simp only [Function.comp_apply] at heq
    rcases h : b.get_cell a with _ | ⟨p, lk⟩ <;> rw [h] at heq
    · simp at heq
    · cases lk
      · by_cases hv : cell_is_victory_point (b.neighborPairs a) p = true
        · simp only [hv, if_true] at heq
          obtain rfl := Option.some.inj heq
          exact ⟨(b.specCoords_mem _).mp ha, p, h, hv⟩
        · simp [hv] at heq
      · simp at heq
  · rintro ⟨hin, p, h, hv⟩
    refine ⟨co, (b.specCoords_mem co).mpr hin, ?_⟩
    simp only [Function.comp_apply]
    rw [h]
    simp [hv]

/-- The sweep, pointwise: a cell is replaced by its locked version exactly
when its coordinate was collected in `cells_to_lock`; all other cells keep
their exact contents. -/
theorem update_get_cell (b : Board) (co : Coordinate) (hin : b.inGrid co) :
    (b.update_locked_cells).get_cell co =
      if co ∈ b.lockTargets then lock_cell (b.get_cell co) else b.get_cell co := by
  show ((b.lockTargets).foldl _ b.cells).getD (b.cell_index co) none = _
  rw [foldl_lock_getD (b.cell_index) b.lockTargets b.cells (b.cell_index co)]
  by_cases hco : co ∈ b.lockTargets
  · rw [if_pos ⟨co, hco, rfl⟩, if_pos hco]
    rfl
  · rw [if_neg ?_, if_neg hco]
    · rfl
    · rintro ⟨co', hco', heq⟩
      have hin' : b.inGrid co' := ((b.lockTargets_mem co').mp hco').1
      exact hco (b.cell_index_inj hin' hin heq ▸ hco')

theorem foldl_lock_length (f : Coordinate → Nat) (l : List Coordinate) (cs : List Cell) :
    (l.foldl (fun cs' co' => cs'.set (f co') (lock_cell (cs'.getD (f co') none))) cs).length =
      cs.length := by
  induction l generalizing cs with
  | nil => rfl
  | cons co' l' ih => simp only [List.foldl_cons, ih, List.length_set]

theorem update_locked_cells_length (b : Board) :
    (b.update_locked_cells).cells.length = b.cells.length :=
  foldl_lock_length _ _ _

theorem update_locked_cells_size (b : Board) : (b.update_locked_cells).size = b.size :=
  rfl

theorem update_locked_cells_turn (b : Board) :
    (b.update_locked_cells).current_turn = b.current_turn :=
  rfl

end Board

namespace Board

theorem cellUnlockedOccupied_iff (b : Board) (co : Coordinate) :
    b.cellUnlockedOccupied co = true ↔
      ∃ p, b.get_cell co = some { player := p, locked := false } := by
  unfold cellUnlockedOccupied
  rcases h : b.get_cell co with _ | ⟨p, lk⟩
  · simp
  · cases lk <;> simp

theorem set_cell_length (b : Board) (co : Coordinate) (t : Token) :
    (b.set_cell co t).cells.length = b.cells.length :=
  List.length_set _ _ _

theorem get_cell_set_cell_self (b : Board) (co : Coordinate) (t : Token)
    (h : b.cell_index co < b.cells.length) :
    (b.set_cell co t).get_cell co = some t :=
  getD_set_self _ _ _ h

theorem get_cell_set_cell_ne (b : Board) (co co' : Coordinate) (t : Token)
    (h : b.cell_index co ≠ b.cell_index co') :
    (b.set_cell co t).get_cell co' = b.get_cell co' :=
  getD_set_ne _ _ _ _ h

theorem advance_place_eq (b : Board) (co : Coordinate) (h : b.get_cell co = none) :
    b.advance (Move.Place co) =
      some (finish_advance (b.set_cell co { locked := false, player := b.current_turn })) := by
  simp [advance, applyMove, h]

theorem advance_swap_eq (b : Board) (c1 c2 : Coordinate)
    (h1 : (b.get_cell c1).isNone = false) (h2 : (b.get_cell c2).isNone = false) :
    b.advance (Move.Swap c1 c2) = some (finish_advance (b.swap_and_lock c1 c2)) := by
  simp [advance, applyMove, h1, h2]

theorem advance_place_none_iff (b : Board) (co : Coordinate) :
    b.advance (Move.Place co) = none ↔ (b.get_cell co).isSome = true := by
  cases h : (b.get_cell co).isSome <;> simp [advance, applyMove, h]

theorem advance_swap_none_iff (b : Board) (c1 c2 : Coordinate) :
    b.advance (Move.Swap c1 c2) = none ↔
      (b.get_cell c1).isNone = true ∨ (b.get_cell c2).isNone = true := by
  cases h1 : (b.get_cell c1).isNone <;> cases h2 : (b.get_cell c2).isNone <;>
    simp [advance, applyMove, h1, h2]

theorem finish_advance_turn (ns : Board) :
    (finish_advance ns).current_turn = (ns.current_turn + 1) % 2 :=
  rfl

theorem finish_advance_get_cell (ns : Board) (co : Coordinate) :
    (finish_advance ns).get_cell co = (ns.update_locked_cells).get_cell co :=
  rfl

theorem finish_advance_cells (ns : Board) :
    (finish_advance ns).cells = (ns.update_locked_cells).cells :=
  rfl

theorem finish_advance_size (ns : Board) : (finish_advance ns).size = ns.size :=
  rfl

/-- A cell whose content locking would not change (empty, or already locked)
is untouched by the sweep. -/
theorem update_get_cell_stable (b : Board) (co : Coordinate) (hin : b.inGrid co)
    (h : lock_cell (b.get_cell co) = b.get_cell co) :
    (b.update_locked_cells).get_cell co = b.get_cell co := by
  rw [update_get_cell b co hin]
  split <;> simp [h]

/-- The sweep on an unlocked token: it gets locked exactly when its computed
neighbours make it a victory point for its own player. -/
theorem update_get_cell_unlocked (b : Board) (co : Coordinate) (p : Nat) (hin : b.inGrid co)
    (h : b.get_cell co = some { player := p, locked := false }) :
    (b.update_locked_cells).get_cell co =
      some { player := p, locked := cell_is_victory_point (b.neighborPairs co) p } := by
  rw [update_get_cell b co hin]
  by_cases hmem : co ∈ b.lockTargets
  · obtain ⟨-, p', hp', hv'⟩ := (b.lockTargets_mem co).mp hmem
    rw [h] at hp'
    have hpp : p = p' := congrArg (fun x => (x.getD { player := 0, locked := false }).player) hp'
    subst hpp
    rw [if_pos hmem, h, hv']
    rfl
  · rw [if_neg hmem, h]
    have hv : cell_is_victory_point (b.neighborPairs co) p = false := by
      by_contra hvv
      exact hmem ((b.lockTargets_mem co).mpr
        ⟨hin, p, h, by revert hvv; cases cell_is_victory_point (b.neighborPairs co) p <;> simp⟩)
    rw [hv]

end Board

namespace Board

theorem swapLockCells_getD_fst (cs : List Cell) (i1 i2 : Nat) (h1 : i1 < cs.length)
    (hne : i1 ≠ i2) :
    (swapLockCells cs i1 i2).getD i1 none = lock_cell (cs.getD i2 none) := by
  simp only [swapLockCells]
  rw [getD_set_ne _ _ _ _ (Ne.symm hne)]
  rw [getD_set_self _ _ _ (by simpa [List.length_set] using h1)]
  rw [getD_set_ne _ _ _ _ (Ne.symm hne), getD_set_self _ _ _ h1]

theorem swapLockCells_getD_snd (cs : List Cell) (i1 i2 : Nat) (h2 : i2 < cs.length)
    (hne : i1 ≠ i2) :
    (swapLockCells cs i1 i2).getD i2 none = lock_cell (cs.getD i1 none) := by
  simp only [swapLockCells]
  rw [getD_set_self _ _ _ (by simpa [List.length_set] using h2)]
  rw [getD_set_ne _ _ _ _ hne]
  rw [getD_set_self _ _ _ (by simpa [List.length_set] using h2)]

theorem swapLockCells_getD_other (cs : List Cell) (i1 i2 j : Nat) (hj1 : i1 ≠ j)
    (hj2 : i2 ≠ j) :
    (swapLockCells cs i1 i2).getD j none = cs.getD j none := by
  simp only [swapLockCells]
  rw [getD_set_ne _ _ _ _ hj2, getD_set_ne _ _ _ _ hj1, getD_set_ne _ _ _ _ hj2,
    getD_set_ne _ _ _ _ hj1]

theorem swapLockCells_length (cs : List Cell) (i1 i2 : Nat) :
    (swapLockCells cs i1 i2).length = cs.length := by
  simp [swapLockCells, List.length_set]

theorem swapLockCells_eq (cs : List Cell) (i1 i2 : Nat) (h1 : i1 < cs.length)
    (h2 : i2 < cs.length) (hne : i1 ≠ i2) :
    swapLockCells cs i1 i2 =
      (cs.set i1 (lock_cell (cs.getD i2 none))).set i2 (lock_cell (cs.getD i1 none)) := by
  apply List.ext_getElem
  · simp [swapLockCells_length, List.length_set]
  · intro j hj hj'
    have hj0 : j < cs.length := by
      simpa [swapLockCells_length] using hj
    rw [← List.getD_eq_getElem _ none hj, ← List.getD_eq_getElem _ none hj']
    by_cases hji2 : j = i2
    · subst hji2
      rw [swapLockCells_getD_snd cs i1 j hj0 hne,
        getD_set_self _ _ _ (by simpa [List.length_set] using hj0)]
    · by_cases hji1 : j = i1
      · subst hji1
        rw [swapLockCells_getD_fst cs j i2 hj0 hji2,
          getD_set_ne _ _ _ _ (Ne.symm hji2), getD_set_self _ _ _ hj0]
      · rw [swapLockCells_getD_other cs i1 i2 j (fun h => hji1 h.symm)
          (fun h => hji2 h.symm), getD_set_ne _ _ _ _ (fun h => hji2 h.symm),
          getD_set_ne _ _ _ _ (fun h => hji1 h.symm)]

theorem swap_and_lock_get_cell_fst (b : Board) (c1 c2 : Coordinate)
    (h1 : b.cell_index c1 < b.cells.length)
    (hne : b.cell_index c1 ≠ b.cell_index c2) :
    (b.swap_and_lock c1 c2).get_cell c1 = lock_cell (b.get_cell c2) := by
  show (swapLockCells b.cells (b.cell_index c1) (b.cell_index c2)).getD (b.cell_index c1)
      none = _
  rw [swapLockCells_getD_fst _ _ _ h1 hne]
  rfl

theorem swap_and_lock_get_cell_snd (b : Board) (c1 c2 : Coordinate)
    (h2 : b.cell_index c2 < b.cells.length)
    (hne : b.cell_index c1 ≠ b.cell_index c2) :
    (b.swap_and_lock c1 c2).get_cell c2 = lock_cell (b.get_cell c1) := by
  show (swapLockCells b.cells (b.cell_index c1) (b.cell_index c2)).getD (b.cell_index c2)
      none = _
  rw [swapLockCells_getD_snd _ _ _ h2 hne]
  rfl

theorem swap_and_lock_get_cell_other (b : Board) (c1 c2 co : Coordinate)
    (ho1 : b.cell_index c1 ≠ b.cell_index co) (ho2 : b.cell_index c2 ≠ b.cell_index co) :
    (b.swap_and_lock c1 c2).get_cell co = b.get_cell co := by
  show (swapLockCells b.cells (b.cell_index c1) (b.cell_index c2)).getD (b.cell_index co)
      none = _
  rw [swapLockCells_getD_other _ _ _ _ ho1 ho2]
  rfl

theorem swap_and_lock_length (b : Board) (c1 c2 : Coordinate) :
    (b.swap_and_lock c1 c2).cells.length = b.cells.length :=
  swapLockCells_length _ _ _

theorem countP_set_balance (p : Cell → Bool) (l : List Cell) (i : Nat) (a : Cell)
    (h : i < l.length) :
    (l.set i a).countP p + (if p (l.getD i none) = true then 1 else 0) =
      l.countP p + (if p a = true then 1 else 0) := by
  rw [List.countP_set p l i a h, List.getD_eq_getElem l none h]
  have hle : (if p l[i] = true then 1 else 0) ≤ l.countP p := by
    split
    · next hp =>
      exact Nat.succ_le_of_lt (List.countP_pos_iff.mpr ⟨l[i], List.getElem_mem h, hp⟩)
    · exact Nat.zero_le _
  omega

theorem foldl_lock_countP_eq (p : Cell → Bool) (hp : ∀ x, p (lock_cell x) = p x)
    (f : Coordinate → Nat) (l : List Coordinate) (cs : List Cell) :
    (l.foldl (fun cs' co' => cs'.set (f co') (lock_cell (cs'.getD (f co') none))) cs).countP
        p = cs.countP p := by
  induction l generalizing cs with
  | nil => rfl
  | cons co' l' ih =>
    simp only [List.foldl_cons]
    rw [ih]
    by_cases hj : f co' < cs.length
    · have hbal := countP_set_balance p cs (f co') (lock_cell (cs.getD (f co') none)) hj
      rw [hp] at hbal
      omega
    · rw [List.set_eq_of_length_le (Nat.le_of_not_lt hj)]

theorem foldl_lock_countP_le (p : Cell → Bool) (hp : ∀ x, p (lock_cell x) = true → p x = true)
    (f : Coordinate → Nat) (l : List Coordinate) (cs : List Cell) :
    (l.foldl (fun cs' co' => cs'.set (f co') (lock_cell (cs'.getD (f co') none))) cs).countP
        p ≤ cs.countP p := by
  induction l generalizing cs with
  | nil => exact Nat.le_refl _
  | cons co' l' ih =>
    simp only [List.foldl_cons]
    refine Nat.le_trans (ih _) ?_
    by_cases hj : f co' < cs.length
    · have hbal := countP_set_balance p cs (f co') (lock_cell (cs.getD (f co') none)) hj
      have hind : (if p (lock_cell (cs.getD (f co') none)) = true then 1 else 0) ≤
          (if p (cs.getD (f co') none) = true then 1 else 0) := by
        by_cases hx : p (lock_cell (cs.getD (f co') none)) = true
        · rw [if_pos hx, if_pos (hp _ hx)]
        · rw [if_neg hx]
          exact Nat.zero_le _
      omega
    · rw [List.set_eq_of_length_le (Nat.le_of_not_lt hj)]

theorem cellIsEmpty_lock (x : Cell) : cellIsEmpty (lock_cell x) = cellIsEmpty x := by
  cases x <;> rfl

theorem cellIsUnlocked_lock (x : Cell) : cellIsUnlocked (lock_cell x) = false := by
  rcases x with _ | ⟨p, lk⟩ <;> rfl

theorem update_countP_isEmpty (b : Board) :
    (b.update_locked_cells).cells.countP cellIsEmpty = b.cells.countP cellIsEmpty :=
  foldl_lock_countP_eq cellIsEmpty cellIsEmpty_lock _ _ _

theorem update_countP_unlocked_le (b : Board) :
    (b.update_locked_cells).cells.countP cellIsUnlocked ≤
      b.cells.countP cellIsUnlocked :=
  foldl_lock_countP_le cellIsUnlocked
    (fun x hx => absurd (cellIsUnlocked_lock x ▸ hx) (by simp)) _ _ _

theorem update_solverMeasure_le (b : Board) :
    (b.update_locked_cells).solverMeasure ≤ b.solverMeasure := by
  unfold solverMeasure
  have h1 := b.update_countP_isEmpty
  have h2 := b.update_countP_unlocked_le
  omega

theorem solverMeasure_finish (ns : Board) :
    (finish_advance ns).solverMeasure = (ns.update_locked_cells).solverMeasure :=
  rfl

end Board

namespace Board

theorem isSome_false_eq_none {o : Cell} (h : ¬o.isSome = true) : o = none := by
  cases o
  · rfl
  · simp at h

theorem advance_size (b : Board) (m : Move) (nb : Board) (h : b.advance m = some nb) :
    nb.size = b.size := by
  cases m with
  | Place co =>
    by_cases hc : (b.get_cell co).isSome = true
    · rw [advance_place_none_iff b co |>.mpr hc] at h
      cases h
    · rw [advance_place_eq b co (isSome_false_eq_none hc)] at h
      obtain rfl := Option.some.inj h
      rfl
  | Swap c1 c2 =>
    by_cases hc1 : (b.get_cell c1).isNone = true
    · rw [advance_swap_none_iff b c1 c2 |>.mpr (Or.inl hc1)] at h
      cases h
    · by_cases hc2 : (b.get_cell c2).isNone = true
      · rw [advance_swap_none_iff b c1 c2 |>.mpr (Or.inr hc2)] at h
        cases h
      · rw [advance_swap_eq b c1 c2 (Bool.not_eq_true _ ▸ hc1) (Bool.not_eq_true _ ▸ hc2)] at h
        obtain rfl := Option.some.inj h
        rfl

theorem advance_length (b : Board) (m : Move) (nb : Board) (h : b.advance m = some nb) :
    nb.cells.length = b.cells.length := by
  cases m with
  | Place co =>
    by_cases hc : (b.get_cell co).isSome = true
    · rw [advance_place_none_iff b co |>.mpr hc] at h
      cases h
    · rw [advance_place_eq b co (isSome_false_eq_none hc)] at h
      obtain rfl := Option.some.inj h
      show ((b.set_cell co _).update_locked_cells).cells.length = _
      rw [update_locked_cells_length, set_cell_length]
  | Swap c1 c2 =>
    by_cases hc1 : (b.get_cell c1).isNone = true
    · rw [advance_swap_none_iff b c1 c2 |>.mpr (Or.inl hc1)] at h
      cases h
    · by_cases hc2 : (b.get_cell c2).isNone = true
      · rw [advance_swap_none_iff b c1 c2 |>.mpr (Or.inr hc2)] at h
        cases h
      · rw [advance_swap_eq b c1 c2 (Bool.not_eq_true _ ▸ hc1) (Bool.not_eq_true _ ▸ hc2)] at h
        obtain rfl := Option.some.inj h
        show ((b.swap_and_lock c1 c2).update_locked_cells).cells.length = _
        rw [update_locked_cells_length, swap_and_lock_length]

theorem advance_WF (b : Board) (m : Move) (nb : Board) (hwf : b.WF)
    (h : b.advance m = some nb) : nb.WF := by
  unfold WF at hwf ⊢
  rw [advance_length b m nb h, advance_size b m nb h, hwf]

/-- Measure decrease: advancing any legal move strictly shrinks
`2·(empty cells) + (unlocked tokens)`. -/
theorem advance_measure_lt (b : Board) (m : Move) (nb : Board) (hwf : b.WF)
    (hm : m ∈ b.get_legal_moves) (h : b.advance m = some nb) :
    nb.solverMeasure < b.solverMeasure := by
  cases m with
  | Place co =>
    obtain ⟨hin, hempty⟩ := (b.mem_legal_place co).mp hm
    rw [advance_place_eq b co hempty] at h
    obtain rfl := Option.some.inj h
    rw [solverMeasure_finish]
    refine Nat.lt_of_le_of_lt (update_solverMeasure_le _) ?_
    have hlt : b.cell_index co < b.cells.length := by
      rw [hwf]
      exact b.cell_index_lt hin
    have hE := countP_set_balance cellIsEmpty b.cells (b.cell_index co)
      (some { locked := false, player := b.current_turn }) hlt
    have hU := countP_set_balance cellIsUnlocked b.cells (b.cell_index co)
      (some { locked := false, player := b.current_turn }) hlt
    have hempty' : b.cells.getD (b.cell_index co) none = none := hempty
    rw [hempty'] at hE hU
    simp [cellIsEmpty, cellIsUnlocked] at hE hU
    unfold solverMeasure
    show 2 * (b.cells.set (b.cell_index co) _).countP cellIsEmpty +
        (b.cells.set (b.cell_index co) _).countP cellIsUnlocked < _
    omega
  | Swap c1 c2 =>
    obtain ⟨hin1, hin2, hne, hu1, hu2⟩ := (b.mem_legal_swap c1 c2).mp hm
    obtain ⟨p1, hp1⟩ := (b.cellUnlockedOccupied_iff c1).mp hu1
    obtain ⟨p2, hp2⟩ := (b.cellUnlockedOccupied_iff c2).mp hu2
    rw [advance_swap_eq b c1 c2 (by rw [hp1]; rfl) (by rw [hp2]; rfl)] at h
    obtain rfl := Option.some.inj h
    rw [solverMeasure_finish]
    refine Nat.lt_of_le_of_lt (update_solverMeasure_le _) ?_
    have hl1 : b.cell_index c1 < b.cells.length := by
      rw [hwf]
      exact b.cell_index_lt hin1
    have hl2 : b.cell_index c2 < b.cells.length := by
      rw [hwf]
      exact b.cell_index_lt hin2
    have hine : b.cell_index c1 ≠ b.cell_index c2 := fun he =>
      hne (b.cell_index_inj hin1 hin2 he).symm
    have hp1' : b.cells.getD (b.cell_index c1) none =
        some { player := p1, locked := false } := hp1
    have hp2' : b.cells.getD (b.cell_index c2) none =
        some { player := p2, locked := false } := hp2
    have hswap := swapLockCells_eq b.cells (b.cell_index c1) (b.cell_index c2) hl1 hl2 hine
    have hmid : ((b.cells.set (b.cell_index c1)
        (lock_cell (b.cells.getD (b.cell_index c2) none))).getD (b.cell_index c2) none) =
        b.cells.getD (b.cell_index c2) none :=
      getD_set_ne _ _ _ _ hine
    have hE1 := countP_set_balance cellIsEmpty b.cells (b.cell_index c1)
      (lock_cell (b.cells.getD (b.cell_index c2) none)) hl1
    have hU1 := countP_set_balance cellIsUnlocked b.cells (b.cell_index c1)
      (lock_cell (b.cells.getD (b.cell_index c2) none)) hl1
    have hE2 := countP_set_balance cellIsEmpty
      (b.cells.set (b.cell_index c1) (lock_cell (b.cells.getD (b.cell_index c2) none)))
      (b.cell_index c2) (lock_cell (b.cells.getD (b.cell_index c1) none))
      (by simpa [List.length_set] using hl2)
    have hU2 := countP_set_balance cellIsUnlocked
      (b.cells.set (b.cell_index c1) (lock_cell (b.cells.getD (b.cell_index c2) none)))
      (b.cell_index c2) (lock_cell (b.cells.getD (b.cell_index c1) none))
      (by simpa [List.length_set] using hl2)
    rw [hmid] at hE2 hU2
    rw [hp1', hp2'] at hE1 hU1 hE2 hU2
    simp [cellIsEmpty, cellIsUnlocked, lock_cell] at hE1 hU1 hE2 hU2
    unfold solverMeasure
    show 2 * (swapLockCells b.cells (b.cell_index c1) (b.cell_index c2)).countP cellIsEmpty +
        (swapLockCells b.cells (b.cell_index c1) (b.cell_index c2)).countP cellIsUnlocked < _
    rw [hswap, hp1', hp2']
    simp only [lock_cell]
    omega

end Board

namespace Board

theorem advance_legal_isSome (b : Board) (m : Move) (hm : m ∈ b.get_legal_moves) :
    (b.advance m).isSome = true := by
  cases m with
  | Place co =>
    obtain ⟨hin, hempty⟩ := (b.mem_legal_place co).mp hm
    rw [advance_place_eq b co hempty]
    rfl
  | Swap c1 c2 =>
    obtain ⟨-, -, -, hu1, hu2⟩ := (b.mem_legal_swap c1 c2).mp hm
    obtain ⟨p1, hp1⟩ := (b.cellUnlockedOccupied_iff c1).mp hu1
    obtain ⟨p2, hp2⟩ := (b.cellUnlockedOccupied_iff c2).mp hu2
    rw [advance_swap_eq b c1 c2 (by rw [hp1]; rfl) (by rw [hp2]; rfl)]
    rfl

theorem check_win_NotOver_iff (b : Board) :
    b.check_win_condition = WinState.NotOver ↔ b.get_legal_moves ≠ [] := by
  simp only [check_win_condition]
  by_cases h : b.get_legal_moves ≠ []
  · simp [h]
  · rw [if_neg h]
    split_ifs <;> simp [h]

/-- Claim C5's "same-player orthogonal neighbour" count for one cell, over the
program's neighbour coordinates. -/
def sameNeighborCount (b : Board) (co : Coordinate) (player : Nat) : Nat :=
  (b.cells_neighbor_coordinates co).countP fun nc =>
    match b.get_cell nc with
    | some t => decide (t.player = player)
    | none => false

/-- Claim C5's victory-point count: the number of the player's occupied cells
(locked or not) with strictly more than 3 same-player neighbours. -/
def countVictorySpec (b : Board) (player : Nat) : Nat :=
  b.specCoords.countP fun co =>
    match b.get_cell co with
    | some t => decide (t.player = player) && decide (3 < sameNeighborCount b co player)
    | none => false

theorem sum_indicator_eq_countP (b : Board) (player : Nat) (l : List Coordinate) :
    ((((l.filterMap fun nc => b.get_cell nc).map
        fun token => if token.player = player then 1 else 0).sum : Nat)) =
      l.countP fun nc =>
        match b.get_cell nc with
        | some t => decide (t.player = player)
        | none => false := by
  induction l with
  | nil => rfl
  | cons nc rest ih =>
    rw [List.filterMap_cons, List.countP_cons]
    rcases h : b.get_cell nc with _ | t
    · simpa using ih
    · by_cases hp : t.player = player
      · simp [hp, ih, Nat.add_comm]
      · simp [hp, ih]

theorem cell_is_victory_point_eq (b : Board) (co : Coordinate) (player : Nat) :
    cell_is_victory_point (b.neighborPairs co) player =
      decide (3 < sameNeighborCount b co player) := by
  unfold cell_is_victory_point neighborPairs sameNeighborCount
  rw [List.filterMap_map]
  congr 2
  exact sum_indicator_eq_countP b player _

theorem count_points_player_aux (b : Board) (player : Nat) (l : List Coordinate) :
    ((((l.filterMap fun co => (b.get_cell co).map fun t => (t, b.neighborPairs co)).filter
          fun tn => decide (tn.1.player = player)).filterMap
        fun tn => if cell_is_victory_point tn.2 player then (some 1 : Option Nat)
          else none).sum : Nat) =
      l.countP fun co =>
        match b.get_cell co with
        | some t =>
          decide (t.player = player) && cell_is_victory_point (b.neighborPairs co) player
        | none => false := by
  induction l with
  | nil => rfl
  | cons co rest ih =>
    rw [List.filterMap_cons, List.countP_cons]
    rcases h : b.get_cell co with _ | t
    · simpa using ih
    · by_cases hp : t.player = player
      · by_cases hv : cell_is_victory_point (b.neighborPairs co) player = true
        · simp [hp, hv, ih, Nat.add_comm]
        · simp only [Bool.not_eq_true] at hv
          simp [hp, hv, ih]
      · simp [hp, ih]

theorem count_victory_points_eq (b : Board) :
    b.count_victory_points = [countVictorySpec b 0, countVictorySpec b 1] := by
  unfold count_victory_points
  rw [show List.range 2 = [0, 1] from rfl]
  simp only [List.map_cons, List.map_nil]
  have key : ∀ player : Nat,
      ((((b.cells_and_neighbors.filterMap fun x => x.1.1.map fun t => (t, x.2)).filter
            fun tn => decide (tn.1.player = player)).filterMap
          fun tn => if cell_is_victory_point tn.2 player then (some 1 : Option Nat)
            else none).sum : Nat) = countVictorySpec b player := by
    intro player
    rw [cells_and_neighbors_eq, List.filterMap_map]
    have : ((fun (x : (Cell × Coordinate) × List (Cell × Coordinate)) =>
          x.1.1.map fun t => (t, x.2)) ∘
        fun co => ((b.get_cell co, co), b.neighborPairs co)) =
        fun co => (b.get_cell co).map fun t => (t, b.neighborPairs co) :=
      rfl
    rw [this, count_points_player_aux]
    unfold countVictorySpec
    refine List.countP_congr fun co hco => ?_
    rcases h : b.get_cell co with _ | t
    · simp
    · rw [cell_is_victory_point_eq]
  rw [key 0, key 1]

theorem check_win_terminal (b : Board) (h : b.get_legal_moves = []) :
    b.check_win_condition =
      if countVictorySpec b 0 = countVictorySpec b 1 then WinState.Draw
      else if countVictorySpec b 1 < countVictorySpec b 0 then WinState.Winner 0
      else WinState.Winner 1 := by
  simp only [check_win_condition]
  rw [if_neg (by simp [h]), count_victory_points_eq]
  rfl

end Board

theorem find_loop_congr (r1 r2 : Board → Option Move) (b : Board) (p : Nat)
    (l : List Move) (h : ∀ m ∈ l, ∀ nb, b.advance m = some nb → r1 nb = r2 nb) :
    find_loop r1 b p l = find_loop r2 b p l := by
  induction l with
  | nil => rfl
  | cons m rest ih =>
    cases ha : b.advance m with
    | none => simp only [find_loop, ha]
    | some nb =>
      simp only [find_loop, ha]
      rw [h m (List.mem_cons_self m rest) nb ha,
        ih fun m' hm' nb' ha' => h m' (List.mem_cons_of_mem _ hm') nb' ha']

theorem find_best_move_aux_irrel_aux :
    ∀ (n : Nat) (b : Board), b.solverMeasure ≤ n → b.WF → ∀ (p f g : Nat),
      b.solverMeasure < f → b.solverMeasure < g →
      find_best_move_aux f b p = find_best_move_aux g b p := by
  intro n
  induction n using Nat.strong_induction_on with
  | _ n ih =>
    intro b hbn hwf p f g hf hg
    cases f with
    | zero => omega
    | succ f' =>
      cases g with
      | zero => omega
      | succ g' =>
        show find_best_move_aux (f' + 1) b p = find_best_move_aux (g' + 1) b p
        unfold find_best_move_aux
        by_cases hc : b.check_win_condition ≠ WinState.NotOver
        · rw [if_pos hc, if_pos hc]
        · rw [if_neg hc, if_neg hc]
          by_cases he : b.get_legal_moves.isEmpty
          · rw [if_pos he, if_pos he]
          · rw [if_neg he, if_neg he]
            refine find_loop_congr _ _ b p b.get_legal_moves fun m hm nb ha => ?_
            have hlt := Board.advance_measure_lt b m nb hwf hm ha
            have hwf' := Board.advance_WF b m nb hwf ha
            exact ih nb.solverMeasure (by omega) nb (Nat.le_refl _) hwf' p f' g'
              (by omega) (by omega)

theorem find_best_move_aux_irrel (b : Board) (hwf : b.WF) (p f g : Nat)
    (hf : b.solverMeasure < f) (hg : b.solverMeasure < g) :
    find_best_move_aux f b p = find_best_move_aux g b p :=
  find_best_move_aux_irrel_aux b.solverMeasure b (Nat.le_refl _) hwf p f g hf hg

theorem find_loop_eq_findFirst (b : Board) (p : Nat) (hwf : b.WF) (l : List Move)
    (hl : ∀ m ∈ l, m ∈ b.get_legal_moves) :
    find_loop (fun nb => find_best_move_aux b.solverMeasure nb p) b p l =
      l.find? fun m =>
        match b.advance m with
        | none => false
        | some nb =>
          decide (nb.check_win_condition = WinState.Winner p) ||
            (find_best_move nb p).isSome := by
  induction l with
  | nil => rfl
  | cons m rest ih =>
    have hm := hl m (List.mem_cons_self m rest)
    have hsome := Board.advance_legal_isSome b m hm
    obtain ⟨nb, ha⟩ := Option.isSome_iff_exists.mp hsome
    have hlt := Board.advance_measure_lt b m nb hwf hm ha
    have hwf' := Board.advance_WF b m nb hwf ha
    have haux : find_best_move_aux b.solverMeasure nb p = find_best_move nb p :=
      find_best_move_aux_irrel nb hwf' p b.solverMeasure (nb.solverMeasure + 1) hlt
        (Nat.lt_succ_self _)
    unfold find_loop
    rw [ha]
    simp only
    rw [haux]
    by_cases hw : nb.check_win_condition = WinState.Winner p
    · rw [if_pos hw, List.find?_cons_of_pos]
      rw [ha]
      simp [hw]
    · rw [if_neg hw]
      by_cases hs : (find_best_move nb p).isSome = true
      · rw [if_pos hs, List.find?_cons_of_pos]
        rw [ha]
        simp [hs]
      · rw [if_neg hs, List.find?_cons_of_neg]
        · exact ih fun m' hm' => hl m' (List.mem_cons_of_mem _ hm')
        · rw [ha]
          simp [hw, hs]

/-- `find_best_move` satisfies the recursion the source writes: `none` on a
terminal board, otherwise the first legal move whose advance wins immediately
for `p` or whose recursive search succeeds. -/
theorem find_best_move_eq (b : Board) (p : Nat) (hwf : b.WF) :
    find_best_move b p =
      if b.check_win_condition ≠ WinState.NotOver then none
      else
        b.get_legal_moves.find? fun m =>
          match b.advance m with
          | none => false
          | some nb =>
            decide (nb.check_win_condition = WinState.Winner p) ||
              (find_best_move nb p).isSome := by
  show find_best_move_aux (b.solverMeasure + 1) b p = _
  unfold find_best_move_aux
  by_cases hc : b.check_win_condition ≠ WinState.NotOver
  · rw [if_pos hc, if_pos hc]
  · rw [if_neg hc, if_neg hc]
    have hne : b.get_legal_moves ≠ [] := by
      push_neg at hc
      exact (Board.check_win_NotOver_iff b).mp hc
    rw [if_neg (by simpa [List.isEmpty_iff] using hne)]
    exact find_loop_eq_findFirst b p hwf b.get_legal_moves fun m hm => hm

namespace Board

theorem swapLockCells_getD_diag (cs : List Cell) (i : Nat) (h : i < cs.length) :
    (swapLockCells cs i i).getD i none = lock_cell (cs.getD i none) := by
  simp only [swapLockCells]
  simp [getD_set_eq_ite, h, List.length_set, lock_cell_idem]

theorem swap_and_lock_get_cell_diag (b : Board) (co : Coordinate)
    (h : b.cell_index co < b.cells.length) :
    (b.swap_and_lock co co).get_cell co = lock_cell (b.get_cell co) := by
  show (swapLockCells b.cells (b.cell_index co) (b.cell_index co)).getD (b.cell_index co)
      none = _
  rw [swapLockCells_getD_diag _ _ h]
  rfl

theorem mem_ite_single (P : Prop) [Decidable P] (a b : Coordinate) :
    (a ∈ if P then [b] else []) ↔ P ∧ a = b := by
  split
  · simp [*]
  · simp [*]

theorem mem_cells_neighbor (b : Board) (cc nc : Coordinate) :
    nc ∈ b.cells_neighbor_coordinates cc ↔
      (cc.x > 0 ∧ nc = c (cc.x - 1) cc.y) ∨
      (cc.x < b.size.1 - 1 ∧ nc = c (cc.x + 1) cc.y) ∨
      (cc.y > 0 ∧ nc = c cc.x (cc.y - 1)) ∨
      (cc.y < b.size.1 - 1 ∧ nc = c cc.x (cc.y + 1)) := by
  simp [cells_neighbor_coordinates, mem_ite_single, List.mem_append, or_assoc]

/-- Claim C9's universal part, as a decidable per-board check: over all in-grid
cells, the downward neighbour `(x, y+1)` is produced exactly when
`y < width - 1`. -/
def downNeighborRuleOk (b : Board) : Bool :=
  b.specCoords.all fun co =>
    decide ((c co.x (co.y + 1) ∈ b.cells_neighbor_coordinates co) ↔ co.y < b.size.1 - 1)

/-- Claim C9's in-bounds part, as a decidable per-board check: every neighbour
coordinate of every in-grid cell has row-major index inside the cells array. -/
def neighborsInBounds (b : Board) : Bool :=
  b.specCoords.all fun co =>
    (b.cells_neighbor_coordinates co).all fun nc =>
      decide (b.cell_index nc < b.size.1 * b.size.2)

theorem downNeighborRuleOk_true (b : Board) : downNeighborRuleOk b = true := by
  rw [downNeighborRuleOk, List.all_eq_true]
  intro co hco
  rw [decide_eq_true_eq, mem_cells_neighbor]
  constructor
  · rintro (⟨h1, he⟩ | ⟨h1, he⟩ | ⟨h1, he⟩ | ⟨h1, he⟩) <;>
      simp only [c, Coordinate.mk.injEq] at he <;> omega
  · intro h4
    exact Or.inr (Or.inr (Or.inr ⟨h4, rfl⟩))

theorem neighborsInBounds_of_le (b : Board) (hwh : b.size.1 ≤ b.size.2) :
    neighborsInBounds b = true := by
  rw [neighborsInBounds, List.all_eq_true]
  intro co hco
  rw [List.all_eq_true]
  intro nc hnc
  rw [decide_eq_true_eq]
  obtain ⟨hx, hy⟩ := (b.specCoords_mem co).mp hco
  apply b.cell_index_lt
  rw [mem_cells_neighbor] at hnc
  rcases hnc with ⟨h1, rfl⟩ | ⟨h1, rfl⟩ | ⟨h1, rfl⟩ | ⟨h1, rfl⟩ <;>
    exact ⟨by simp only [c]; omega, by simp only [c]; omega⟩

/-- Claim C4's orthogonal neighbours "(left, right, up, down — omitted at grid
edges)": the downward neighbour bounded by the HEIGHT, as the claim's words
say (unlike the program, which bounds it by the width). -/
def orthNeighborsSpec (b : Board) (cc : Coordinate) : List Coordinate :=
  (if cc.x > 0 then [c (cc.x - 1) cc.y] else []) ++
  (if cc.x < b.size.1 - 1 then [c (cc.x + 1) cc.y] else []) ++
  (if cc.y > 0 then [c cc.x (cc.y - 1)] else []) ++
  (if cc.y < b.size.2 - 1 then [c cc.x (cc.y + 1)] else [])

/-- The number of true orthogonal neighbours (claim C4's reading) holding a
token of `player`. -/
def sameNeighborCountSpec (b : Board) (co : Coordinate) (player : Nat) : Nat :=
  (b.orthNeighborsSpec co).countP fun nc =>
    match b.get_cell nc with
    | some t => decide (t.player = player)
    | none => false

/-- The amended claim C4's description of the sweep's effect on one cell, all
read from the same pre-sweep snapshot `bd`: an unlocked token is locked
exactly when strictly more than 3 of the program's neighbour cells (claim C9's
width-bounded rule) hold a same-player token; locked tokens and empty cells
are untouched. -/
def sweepSpecCell (bd : Board) (co : Coordinate) : Cell :=
  match bd.get_cell co with
  | some t =>
    if t.locked then some t
    else some { player := t.player, locked := decide (3 < sameNeighborCount bd co t.player) }
  | none => none

/-- Decidable per-board check that the sweep agrees with `sweepSpecCell` at
every in-grid cell. -/
def sweepAgrees (bd : Board) : Bool :=
  bd.specCoords.all fun co =>
    decide ((bd.update_locked_cells).get_cell co = sweepSpecCell bd co)

theorem sweepAgrees_true (bd : Board) : sweepAgrees bd = true := by
  rw [sweepAgrees, List.all_eq_true]
  intro co hco
  rw [decide_eq_true_eq]
  have hin : bd.inGrid co := (bd.specCoords_mem co).mp hco
  unfold sweepSpecCell
  rcases h : bd.get_cell co with _ | ⟨p, lk⟩
  · rw [update_get_cell_stable bd co hin (by rw [h]; rfl)]
    rw [h]
  · cases lk
    · rw [update_get_cell_unlocked bd co p hin h, cell_is_victory_point_eq]
      simp
    · rw [update_get_cell_stable bd co hin (by rw [h]; rfl), h]
      simp

end Board

/-! ## Claim theorems -/

/-- Which moves `advance` rejects: a `Place` on an occupied cell, or a `Swap`
touching an empty cell. -/
def Board.advanceIllegal (b : Board) : Move → Prop
  | Move.Place co => (b.get_cell co).isSome = true
  | Move.Swap c1 c2 => (b.get_cell c1).isNone = true ∨ (b.get_cell c2).isNone = true

/-- C1: `get_legal_moves` returns exactly, and in exactly this order, the
row-major scan where an empty cell yields one `Place`, an unlocked token
yields one `Swap` to every other distinct unlocked-token coordinate (targets
in row-major order, ordered pairs, so both directions appear), and a locked
token yields nothing. -/
theorem claim_C1 (b : Board) : b.get_legal_moves = b.legalMovesSpec :=
  b.legal_moves_eq_spec

/-- C2: for in-grid moves on a well-formed board, `advance` returns the
illegal-move failure exactly for a `Place` on an occupied cell or a `Swap`
touching an empty cell (so a `Swap` of two occupied cells succeeds even when
locked); and every move drawn from `get_legal_moves` succeeds.  The "no state
is mutated on failure" part of the claim is inherent to the embedding:
`advance` is a pure function of `b`, mirroring Rust's `&self` receiver that
the function never mutates.  (`width ≤ height` excludes the boards on which
the sweep's out-of-bounds read — claim C9 — would abort the Rust program.) -/
theorem claim_C2 (b : Board) (m : Move) (_hwf : b.WF) (_hwh : b.size.1 ≤ b.size.2)
    (hg : b.moveInGrid m) :
    (b.advance m = none ↔ b.advanceIllegal m) ∧
      (m ∉ b.get_legal_moves ∨ (b.advance m).isSome = true) := by
  constructor
  · cases m with
    | Place co => exact Board.advance_place_none_iff b co
    | Swap c1 c2 => exact Board.advance_swap_none_iff b c1 c2
  · by_cases hm : m ∈ b.get_legal_moves
    · exact Or.inr (Board.advance_legal_isSome b m hm)
    · exact Or.inl hm

/-- The concrete board used to witness C2 and C3: player 1 to move, one
unlocked player-0 token at (0,0) on a 2×2 grid. -/
def B22w : Board :=
  { current_turn := 1, cells := [some ⟨0, false⟩, none, none, none], size := (2, 2) }

theorem claim_C2_witness :
    B22w.WF ∧ B22w.size.1 ≤ B22w.size.2 ∧ B22w.moveInGrid (Move.Place (c 0 0)) ∧
      ((B22w.advance (Move.Place (c 0 0)) = none ↔
          B22w.advanceIllegal (Move.Place (c 0 0))) ∧
        (Move.Place (c 0 0) ∉ B22w.get_legal_moves ∨
          (B22w.advance (Move.Place (c 0 0))).isSome = true)) :=
  ⟨by decide, by decide, by decide,
    claim_C2 B22w (Move.Place (c 0 0)) (by decide) (by decide) (by decide)⟩

/-- The 3×3 counterexample board for C3: four unlocked player-0 tokens around
the centre, player 0 to move. -/
def B3ctr : Board :=
  { current_turn := 0,
    cells := [none, some ⟨0, false⟩, none, some ⟨0, false⟩, none, some ⟨0, false⟩,
      none, some ⟨0, false⟩, none],
    size := (3, 3) }

/-- C3 counterexample: the claim says the board returned by a successful
`Place(c)` holds a fresh token with `locked = false` at `c`.  On `B3ctr`,
`Place((1,1))` succeeds but the returned board holds a LOCKED token at (1,1):
the locking sweep runs after the placement and locks the fresh token itself
(it has four same-player neighbours). -/
theorem claim_C3_counterexample :
    (B3ctr.advance (Move.Place (c 1 1))).map (fun nb => nb.get_cell (c 1 1)) =
      some (some { player := 0, locked := true }) := by
  decide

/-- C3 amended: on a successful `advance` the returned board's `current_turn`
is `(current_turn + 1) % 2`; a `Swap(c1, c2)` exchanges the two cells'
contents with both resulting tokens forced `locked = true`; and a `Place(c)`
puts a token of the mover at `c` that is unlocked UNLESS the locking sweep
itself locks it, i.e. its `locked` flag equals the victory-point test of `c`
against the post-placement snapshot (the only change from the claim as
stated, forced by `claim_C3_counterexample`). -/
theorem claim_C3_amended (b : Board) (m : Move) (nb : Board) (hwf : b.WF)
    (_hwh : b.size.1 ≤ b.size.2) (hg : b.moveInGrid m) (h : b.advance m = some nb) :
    nb.current_turn = (b.current_turn + 1) % 2 ∧
      (match m with
       | Move.Place co =>
         nb.get_cell co =
           some { player := b.current_turn,
                  locked := Board.cell_is_victory_point
                    ((b.set_cell co ⟨b.current_turn, false⟩).neighborPairs co)
                    b.current_turn }
       | Move.Swap c1 c2 =>
         nb.get_cell c1 = Board.lock_cell (b.get_cell c2) ∧
           nb.get_cell c2 = Board.lock_cell (b.get_cell c1)) := by
  cases m with
  | Place co =>
    have hg' : b.inGrid co := hg
    have hempty : b.get_cell co = none := by
      by_cases hs : (b.get_cell co).isSome = true
      · rw [(Board.advance_place_none_iff b co).mpr hs] at h
        cases h
      · exact Board.isSome_false_eq_none hs
    rw [Board.advance_place_eq b co hempty] at h
    obtain rfl := Option.some.inj h
    refine ⟨rfl, ?_⟩
    show (Board.finish_advance _).get_cell co = _
    rw [Board.finish_advance_get_cell]
    have hidx : b.cell_index co < b.cells.length := by
      rw [hwf]
      exact b.cell_index_lt hg'
    exact Board.update_get_cell_unlocked _ co b.current_turn hg'
      (Board.get_cell_set_cell_self b co _ hidx)
  | Swap c1 c2 =>
    obtain ⟨hg1, hg2⟩ := hg
    have hs1 : (b.get_cell c1).isNone = false := by
      by_cases hs : (b.get_cell c1).isNone = true
      · rw [(Board.advance_swap_none_iff b c1 c2).mpr (Or.inl hs)] at h
        cases h
      · exact Bool.eq_false_iff.mpr hs
    have hs2 : (b.get_cell c2).isNone = false := by
      by_cases hs : (b.get_cell c2).isNone = true
      · rw [(Board.advance_swap_none_iff b c1 c2).mpr (Or.inr hs)] at h
        cases h
      · exact Bool.eq_false_iff.mpr hs
    rw [Board.advance_swap_eq b c1 c2 hs1 hs2] at h
    obtain rfl := Option.some.inj h
    have hi1 : b.cell_index c1 < b.cells.length := by
      rw [hwf]
      exact b.cell_index_lt hg1
    have hi2 : b.cell_index c2 < b.cells.length := by
      rw [hwf]
      exact b.cell_index_lt hg2
    obtain ⟨t1, ht1⟩ : ∃ t, b.get_cell c1 = some t := by
      rcases hc : b.get_cell c1 with _ | t
      · rw [hc] at hs1
        cases hs1
      · exact ⟨t, rfl⟩
    obtain ⟨t2, ht2⟩ : ∃ t, b.get_cell c2 = some t := by
      rcases hc : b.get_cell c2 with _ | t
      · rw [hc] at hs2
        cases hs2
      · exact ⟨t, rfl⟩
    refine ⟨rfl, ?_, ?_⟩
    · show (Board.finish_advance _).get_cell c1 = _
      rw [Board.finish_advance_get_cell]
      by_cases hcc : c1 = c2
      · subst hcc
        have hsw : (b.swap_and_lock c1 c1).get_cell c1 = Board.lock_cell (b.get_cell c1) :=
          Board.swap_and_lock_get_cell_diag b c1 hi1
        rw [Board.update_get_cell_stable (b.swap_and_lock c1 c1) c1 hg1
          (by rw [hsw, ht1]; exact Board.lock_cell_idem _), hsw]
      · have hine : b.cell_index c1 ≠ b.cell_index c2 := fun he =>
          hcc (b.cell_index_inj hg1 hg2 he)
        have hsw : (b.swap_and_lock c1 c2).get_cell c1 = Board.lock_cell (b.get_cell c2) :=
          Board.swap_and_lock_get_cell_fst b c1 c2 hi1 hine
        rw [Board.update_get_cell_stable (b.swap_and_lock c1 c2) c1 hg1
          (by rw [hsw, ht2]; exact Board.lock_cell_idem _), hsw]
    · show (Board.finish_advance _).get_cell c2 = _
      rw [Board.finish_advance_get_cell]
      by_cases hcc : c1 = c2
      · subst hcc
        have hsw : (b.swap_and_lock c1 c1).get_cell c1 = Board.lock_cell (b.get_cell c1) :=
          Board.swap_and_lock_get_cell_diag b c1 hi1
        rw [Board.update_get_cell_stable (b.swap_and_lock c1 c1) c1 hg1
          (by rw [hsw, ht1]; exact Board.lock_cell_idem _), hsw]
      · have hine : b.cell_index c1 ≠ b.cell_index c2 := fun he =>
          hcc (b.cell_index_inj hg1 hg2 he)
        have hsw : (b.swap_and_lock c1 c2).get_cell c2 = Board.lock_cell (b.get_cell c1) :=
          Board.swap_and_lock_get_cell_snd b c1 c2 hi2 hine
        rw [Board.update_get_cell_stable (b.swap_and_lock c1 c2) c2 hg2
          (by rw [hsw, ht1]; exact Board.lock_cell_idem _), hsw]

/-- Board and advanced board used to witness the amended C3. -/
def B22c3 : Board :=
  { current_turn := 1, cells := [some ⟨0, false⟩, none, none, none], size := (2, 2) }

def B22c3adv : Board :=
  { current_turn := 0, cells := [some ⟨0, false⟩, none, none, some ⟨1, false⟩],
    size := (2, 2) }

theorem claim_C3_witness :
    B22c3.WF ∧ B22c3.size.1 ≤ B22c3.size.2 ∧ B22c3.moveInGrid (Move.Place (c 1 1)) ∧
      B22c3.advance (Move.Place (c 1 1)) = some B22c3adv ∧
      (B22c3adv.current_turn = (B22c3.current_turn + 1) % 2 ∧
        B22c3adv.get_cell (c 1 1) =
          some { player := B22c3.current_turn,
                 locked := Board.cell_is_victory_point
                   ((B22c3.set_cell (c 1 1) ⟨B22c3.current_turn, false⟩).neighborPairs
                     (c 1 1))
                   B22c3.current_turn }) :=
  ⟨by decide, by decide, by decide, by decide,
    claim_C3_amended B22c3 (Move.Place (c 1 1)) B22c3adv (by decide) (by decide)
      (by decide) (by decide)⟩

/-- The 3×5 counterexample board for C4: player 0 to move; unlocked player-0
tokens at (1,1), (0,2), (1,2), (2,2). -/
def B35ctr : Board :=
  { current_turn := 0,
    cells := [none, none, none, none, some ⟨0, false⟩, none, some ⟨0, false⟩,
      some ⟨0, false⟩, some ⟨0, false⟩, none, none, none, none, none, none],
    size := (3, 5) }

/-- C4 counterexample: the claim says the sweep locks exactly the unlocked
tokens with strictly more than 3 same-player orthogonal neighbours (left,
right, up, down, omitted at grid edges).  After `Place((1,3))` on `B35ctr`,
the cell (1,2) holds an unlocked player-0 token with all 4 of its true
orthogonal neighbours held by player 0 — yet the returned board leaves it
UNLOCKED, because the program bounds the downward neighbour by `width - 1`
(here 2) rather than `height - 1`, so it only counts 3 neighbours. -/
theorem claim_C4_counterexample :
    (B35ctr.advance (Move.Place (c 1 3))).map
        (fun nb => (nb.get_cell (c 1 2), Board.sameNeighborCountSpec nb (c 1 2) 0)) =
      some (some { player := 0, locked := false }, 4) := by
  decide

/-- C4 amended: on every successful `advance`, the locking sweep runs on the
post-move snapshot `mid` before the turn increment, and it locks exactly
those cells of `mid` holding an unlocked token with strictly more than 3
same-player neighbours AS THE PROGRAM COMPUTES NEIGHBOURS (the downward
neighbour bounded by `width - 1`, claim C9) — the only change from the claim
as stated, forced by `claim_C4_counterexample`.  All qualifying cells are
judged against the same snapshot `mid` and no other cell's lock flag or
content changes (`sweepSpecCell` is a function of `mid` alone). -/
theorem claim_C4_amended (b : Board) (m : Move) (mid : Board) (_hwf : b.WF)
    (_hwh : b.size.1 ≤ b.size.2) (hmid : b.applyMove m = some mid) :
    b.advance m = some (Board.finish_advance mid) ∧ Board.sweepAgrees mid = true := by
  constructor
  · show (b.applyMove m).map Board.finish_advance = _
    rw [hmid]
    rfl
  · exact Board.sweepAgrees_true mid

def B22c4 : Board :=
  { current_turn := 1, cells := [some ⟨0, false⟩, none, none, none], size := (2, 2) }

def B22c4mid : Board :=
  { current_turn := 1, cells := [some ⟨0, false⟩, none, none, some ⟨1, false⟩],
    size := (2, 2) }

theorem claim_C4_witness :
    B22c4.WF ∧ B22c4.size.1 ≤ B22c4.size.2 ∧
      B22c4.applyMove (Move.Place (c 1 1)) = some B22c4mid ∧
      (B22c4.advance (Move.Place (c 1 1)) = some (Board.finish_advance B22c4mid) ∧
        Board.sweepAgrees B22c4mid = true) :=
  ⟨by decide, by decide, by decide,
    claim_C4_amended B22c4 (Move.Place (c 1 1)) B22c4mid (by decide) (by decide)
      (by decide)⟩

/-- C5: `check_win_condition` returns `NotOver` iff `get_legal_moves` is
non-empty; when no legal move exists it returns `Draw` on equal victory-point
counts and otherwise `Winner` of the strictly higher count, a player's count
being the number of that player's occupied cells (locked or not) with
strictly more than 3 same-player neighbours (`countVictorySpec`, stated over
the program's neighbour computation — claim C9 settles what that computes). -/
theorem claim_C5 (b : Board) (_hwf : b.WF) (_hwh : b.size.1 ≤ b.size.2) :
    (b.check_win_condition = WinState.NotOver ↔ b.get_legal_moves ≠ []) ∧
      (b.get_legal_moves ≠ [] ∨
        b.check_win_condition =
          if Board.countVictorySpec b 0 = Board.countVictorySpec b 1 then WinState.Draw
          else if Board.countVictorySpec b 1 < Board.countVictorySpec b 0 then
            WinState.Winner 0
          else WinState.Winner 1) := by
  refine ⟨Board.check_win_NotOver_iff b, ?_⟩
  by_cases h : b.get_legal_moves = []
  · exact Or.inr (Board.check_win_terminal b h)
  · exact Or.inl h

/-- A terminal 1×1 board (one locked token): no legal moves, a draw. -/
def B11c5 : Board :=
  { current_turn := 0, cells := [some ⟨0, true⟩], size := (1, 1) }

theorem claim_C5_witness :
    B11c5.WF ∧ B11c5.size.1 ≤ B11c5.size.2 ∧
      ((B11c5.check_win_condition = WinState.NotOver ↔ B11c5.get_legal_moves ≠ []) ∧
        (B11c5.get_legal_moves ≠ [] ∨
          B11c5.check_win_condition =
            if Board.countVictorySpec B11c5 0 = Board.countVictorySpec B11c5 1 then
              WinState.Draw
            else if Board.countVictorySpec B11c5 1 < Board.countVictorySpec B11c5 0 then
              WinState.Winner 0
            else WinState.Winner 1)) :=
  ⟨by decide, by decide, claim_C5 B11c5 (by decide) (by decide)⟩

/-- C6: `find_best_move` returns `none` on a terminal board (which subsumes
the empty-legal-move check, dead code in the source since `check_win_condition`
only returns `NotOver` when moves exist); otherwise it returns the first move
`m` in `get_legal_moves` order such that the advanced board's win state is
`Winner(p)` or the recursive call on the advanced board (ignoring whose turn
it is there) returns some move; `none` if no candidate qualifies. -/
theorem claim_C6 (b : Board) (p : Nat) (hwf : b.WF) (_hwh : b.size.1 ≤ b.size.2) :
    find_best_move b p =
      if b.check_win_condition ≠ WinState.NotOver then none
      else
        b.get_legal_moves.find? fun m =>
          match b.advance m with
          | none => false
          | some nb =>
            decide (nb.check_win_condition = WinState.Winner p) ||
              (find_best_move nb p).isSome :=
  find_best_move_eq b p hwf

def B11c6 : Board := Board.new (1, 1)

theorem claim_C6_witness :
    B11c6.WF ∧ B11c6.size.1 ≤ B11c6.size.2 ∧
      find_best_move B11c6 0 =
        (if B11c6.check_win_condition ≠ WinState.NotOver then none
         else
           B11c6.get_legal_moves.find? fun m =>
             match B11c6.advance m with
             | none => false
             | some nb =>
               decide (nb.check_win_condition = WinState.Winner 0) ||
                 (find_best_move nb 0).isSome) :=
  ⟨by decide, by decide, claim_C6 B11c6 0 (by decide) (by decide)⟩

/-- C7: a locked token survives any legal move unchanged — same player, still
locked, never displaced: a legal `Place` targets an empty cell and a legal
`Swap` only touches unlocked cells, and the sweep never changes a locked
cell. -/
theorem claim_C7 (b : Board) (m : Move) (co : Coordinate) (p : Nat) (_hwf : b.WF)
    (_hwh : b.size.1 ≤ b.size.2) (hm : m ∈ b.get_legal_moves) (hco : b.inGrid co)
    (hlock : b.get_cell co = some { player := p, locked := true }) :
    (b.advance m).map (fun nb => nb.get_cell co) =
      some (some { player := p, locked := true }) := by
  cases m with
  | Place c' =>
    obtain ⟨hin', hempty⟩ := (b.mem_legal_place c').mp hm
    have hne : b.cell_index c' ≠ b.cell_index co := by
      intro he
      have hsame : b.get_cell c' = b.get_cell co := by
        unfold Board.get_cell
        rw [he]
      rw [hempty, hlock] at hsame
      cases hsame
    rw [Board.advance_place_eq b c' hempty]
    have hmidco : (b.set_cell c' ⟨b.current_turn, false⟩).get_cell co =
        some { player := p, locked := true } := by
      rw [Board.get_cell_set_cell_ne b c' co _ hne]
      exact hlock
    have hfin : (Board.finish_advance (b.set_cell c' ⟨b.current_turn, false⟩)).get_cell co =
        some { player := p, locked := true } := by
      rw [Board.finish_advance_get_cell,
        Board.update_get_cell_stable (b.set_cell c' ⟨b.current_turn, false⟩) co hco
          (by rw [hmidco]; rfl)]
      exact hmidco
    exact congrArg some hfin
  | Swap c1 c2 =>
    obtain ⟨hg1, hg2, hne, hu1, hu2⟩ := (b.mem_legal_swap c1 c2).mp hm
    obtain ⟨p1, hp1⟩ := (b.cellUnlockedOccupied_iff c1).mp hu1
    obtain ⟨p2, hp2⟩ := (b.cellUnlockedOccupied_iff c2).mp hu2
    have ho1 : b.cell_index c1 ≠ b.cell_index co := by
      intro he
      have hsame : b.get_cell c1 = b.get_cell co := by
        unfold Board.get_cell
        rw [he]
      rw [hp1, hlock] at hsame
      simp at hsame
    have ho2 : b.cell_index c2 ≠ b.cell_index co := by
      intro he
      have hsame : b.get_cell c2 = b.get_cell co := by
        unfold Board.get_cell
        rw [he]
      rw [hp2, hlock] at hsame
      simp at hsame
    rw [Board.advance_swap_eq b c1 c2 (by rw [hp1]; rfl) (by rw [hp2]; rfl)]
    have hmidco : (b.swap_and_lock c1 c2).get_cell co =
        some { player := p, locked := true } := by
      rw [Board.swap_and_lock_get_cell_other b c1 c2 co ho1 ho2]
      exact hlock
    have hfin : (Board.finish_advance (b.swap_and_lock c1 c2)).get_cell co =
        some { player := p, locked := true } := by
      rw [Board.finish_advance_get_cell,
        Board.update_get_cell_stable (b.swap_and_lock c1 c2) co hco
          (by rw [hmidco]; rfl)]
      exact hmidco
    exact congrArg some hfin

def B22c7 : Board :=
  { current_turn := 0, cells := [some ⟨1, true⟩, none, none, none], size := (2, 2) }

theorem claim_C7_witness :
    B22c7.WF ∧ B22c7.size.1 ≤ B22c7.size.2 ∧
      Move.Place (c 1 0) ∈ B22c7.get_legal_moves ∧ B22c7.inGrid (c 0 0) ∧
      B22c7.get_cell (c 0 0) = some { player := 1, locked := true } ∧
      (B22c7.advance (Move.Place (c 1 0))).map (fun nb => nb.get_cell (c 0 0)) =
        some (some { player := 1, locked := true }) :=
  ⟨by decide, by decide, by decide, by decide, by decide,
    claim_C7 B22c7 (Move.Place (c 1 0)) (c 0 0) 1 (by decide) (by decide) (by decide)
      (by decide) (by decide)⟩

def B22c8 : Board :=
  { current_turn := 1, cells := [some ⟨0, false⟩, none, none, none], size := (2, 2) }

/-- C8 counterexample: the claim says the legal-move count strictly shrinks
after every legal `advance`.  On `B22c8` there are 3 legal moves; after the
legal move `Place((0,1))` the resulting board has 4 legal moves (two `Place`s
plus the two ordered `Swap`s between the two unlocked tokens) — the count
GREW. -/
theorem claim_C8_counterexample :
    Move.Place (c 0 1) ∈ B22c8.get_legal_moves ∧
      B22c8.get_legal_moves.length = 3 ∧
      (B22c8.advance (Move.Place (c 0 1))).map (fun nb => nb.get_legal_moves.length) =
        some 4 := by
  decide

/-- C8 amended: the legal-move count need not shrink (a `Place` can create
more `Swap`s than it removes `Place`s, see `claim_C8_counterexample`); what
does strictly decrease on every legal `advance` — and makes every real play
line finite — is the measure `2·(number of empty cells) + (number of
unlocked tokens)` (`solverMeasure`): a `Place` trades an empty cell for an
unlocked token, a legal `Swap` locks two unlocked tokens, and the sweep only
ever locks. -/
theorem claim_C8_amended (b : Board) (m : Move) (nb : Board) (hwf : b.WF)
    (hm : m ∈ b.get_legal_moves) (h : b.advance m = some nb) :
    nb.solverMeasure < b.solverMeasure :=
  Board.advance_measure_lt b m nb hwf hm h

def B22c8adv : Board :=
  { current_turn := 0, cells := [some ⟨0, false⟩, none, some ⟨1, false⟩, none],
    size := (2, 2) }

theorem claim_C8_witness :
    B22c8.WF ∧ Move.Place (c 0 1) ∈ B22c8.get_legal_moves ∧
      B22c8.advance (Move.Place (c 0 1)) = some B22c8adv ∧
      B22c8adv.solverMeasure < B22c8.solverMeasure :=
  ⟨by decide, by decide, by decide,
    claim_C8_amended B22c8 (Move.Place (c 0 1)) B22c8adv (by decide) (by decide)
      (by decide)⟩

def B21c9 : Board := Board.new (2, 1)

/-- C9: the downward neighbour `(x, y+1)` of every in-grid cell is produced
exactly when `y < width - 1` (the bound is the width, not the height); on any
board with `width ≤ height` every produced neighbour's row-major index is
within `width·height` (so, on a well-formed board, within the cells array,
and every sweep / victory-count lookup is in bounds); and on the concrete
2×1 board (width 2 > height 1) the in-grid cell (0,0) produces the neighbour
(0,1) with `y = height`, whose row-major index 2 lies past the end of the
2-element cells array — an out-of-bounds lookup. -/
theorem claim_C9 (b : Board) :
    Board.downNeighborRuleOk b = true ∧
      (Board.neighborsInBounds b = true ∨ b.size.2 < b.size.1) ∧
      (c 0 1 ∈ B21c9.cells_neighbor_coordinates (c 0 0) ∧ (c 0 1).y = B21c9.size.2 ∧
        B21c9.cell_index (c 0 1) = 2 ∧ B21c9.cells.length = 2 ∧
        B21c9.size.2 < B21c9.size.1) := by
  refine ⟨Board.downNeighborRuleOk_true b, ?_, by decide⟩
  by_cases hwh : b.size.1 ≤ b.size.2
  · exact Or.inl (Board.neighborsInBounds_of_le b hwh)
  · exact Or.inr (Nat.lt_of_not_le hwh)

def B22c10 : Board := Board.new (2, 2)

/-- C10: `advance` does not validate that a move's coordinates lie in the
grid.  On the empty 2×2 board, `Place((2,0))` has `x = 2 ≥ width`, yet its
row-major index `2·0 + 2 = 2` is inside the 4-cell array, so the move is NOT
rejected: it succeeds and silently occupies the distinct in-grid cell (0,1)
(the cell with row-major index 2). -/
theorem claim_C10 :
    B22c10.size.1 ≤ (c 2 0).x ∧ B22c10.cell_index (c 2 0) = 2 ∧
      B22c10.cell_index (c 2 0) < B22c10.cells.length ∧ c 2 0 ≠ c 0 1 ∧
      B22c10.cell_index (c 0 1) = B22c10.cell_index (c 2 0) ∧
      (B22c10.advance (Move.Place (c 2 0))).map (fun nb => nb.get_cell (c 0 1)) =
        some (some { player := 0, locked := false }) := by
  decide
